import Mathlib

/-!
Shallow embedding of the Walrus Swift SDK (`template.py`): the `BlobCache`
disk-backed bounded cache and the `WalrusClient` façade in front of it.
Python dicts are modelled as insertion-ordered association lists, the
filesystem as a map from paths to file entries, and `hashlib.sha256` is
implemented from FIPS 180-4 so that cache file names can be computed.
-/

namespace Walrus

set_option maxRecDepth 10000

/-- Blob contents: a sequence of bytes (each `< 256`). -/
abbrev Bytes := List Nat

/-- Python dict lookup: `d[k]` / `k in d`, over an insertion-ordered
association list. -/
def dictGet (k : String) : List (String × α) → Option α
  | [] => none
  | (k', v) :: rest => if k' = k then some v else dictGet k rest

/-- Python dict assignment `d[k] = v`: updates an existing key in place
(keeping its position), otherwise appends at the end (insertion order). -/
def dictInsert (k : String) (v : α) : List (String × α) → List (String × α)
  | [] => [(k, v)]
  | (k', v') :: rest => if k' = k then (k, v) :: rest else (k', v') :: dictInsert k v rest

/-- Python `del d[k]` (dicts built by `dictInsert` have no duplicate keys). -/
def dictRemove (k : String) (l : List (String × α)) : List (String × α) :=
  l.filter (fun p => p.1 != k)

/-- The keys of an association list, in iteration order. -/
def keys (l : List (String × α)) : List String := l.map Prod.fst

/-- Scan for the key of the minimal value, keeping the earlier key on ties
(the behaviour of Python `min(d.items(), key=lambda x: x[1])[0]`). -/
def minFrom (k : String) (v : Nat) : List (String × Nat) → String
  | [] => k
  | (k', v') :: rest => if v' < v then minFrom k' v' rest else minFrom k v rest

/-- `min(d.items(), key=lambda x: x[1])[0]` on a possibly-empty dict. -/
def minByVal : List (String × Nat) → Option String
  | [] => none
  | (k, v) :: rest => some (minFrom k v rest)

/-- UTF-8 encoding of one character (Python `str.encode()` is UTF-8). -/
def utf8Bytes (c : Char) : Bytes :=
  let n := c.toNat
  if n < 128 then [n]
  else if n < 2048 then [192 + n / 64, 128 + n % 64]
  else if n < 65536 then [224 + n / 4096, 128 + n / 64 % 64, 128 + n % 64]
  else [240 + n / 262144, 128 + n / 4096 % 64, 128 + n / 64 % 64, 128 + n % 64]

/-- Python `s.encode()`: the UTF-8 bytes of a string. -/
def strBytes (s : String) : Bytes :=
  s.data.foldr (fun c acc => utf8Bytes c ++ acc) []

/-- Right rotation of a 32-bit word. -/
def rotr (n x : Nat) : Nat := (x >>> n ||| x <<< (32 - n)) % 2 ^ 32

/-- FIPS 180-4 small sigma 0. -/
def ssig0 (x : Nat) : Nat := rotr 7 x ^^^ rotr 18 x ^^^ x >>> 3

/-- FIPS 180-4 small sigma 1. -/
def ssig1 (x : Nat) : Nat := rotr 17 x ^^^ rotr 19 x ^^^ x >>> 10

/-- FIPS 180-4 big sigma 0. -/
def bsig0 (x : Nat) : Nat := rotr 2 x ^^^ rotr 13 x ^^^ rotr 22 x

/-- FIPS 180-4 big sigma 1. -/
def bsig1 (x : Nat) : Nat := rotr 6 x ^^^ rotr 11 x ^^^ rotr 25 x

/-- FIPS 180-4 `Ch` (the complement is taken within 32 bits). -/
def ch (x y z : Nat) : Nat := (x &&& y) ^^^ ((2 ^ 32 - 1 - x) &&& z)

/-- FIPS 180-4 `Maj`. -/
def maj (x y z : Nat) : Nat := (x &&& y) ^^^ (x &&& z) ^^^ (y &&& z)

/-- The eight 32-bit words of a SHA-256 state. -/
structure Sha8 where
  a : Nat
  b : Nat
  c : Nat
  d : Nat
  e : Nat
  f : Nat
  g : Nat
  h : Nat
deriving DecidableEq, Repr

/-- The 64 SHA-256 round constants `K[0..63]` (decimal rendering). -/
def k256 : List Nat :=
  [1116352408, 1899447441, 3049323471, 3921009573, 961987163, 1508970993,
   2453635748, 2870763221, 3624381080, 310598401, 607225278, 1426881987,
   1925078388, 2162078206, 2614888103, 3248222580, 3835390401, 4022224774,
   264347078, 604807628, 770255983, 1249150122, 1555081692, 1996064986,
   2554220882, 2821834349, 2952996808, 3210313671, 3336571891, 3584528711,
   113926993, 338241895, 666307205, 773529912, 1294757372, 1396182291,
   1695183700, 1986661051, 2177026350, 2456956037, 2730485921, 2820302411,
   3259730800, 3345764771, 3516065817, 3600352804, 4094571909, 275423344,
   430227734, 506948616, 659060556, 883997877, 958139571, 1322822218,
   1537002063, 1747873779, 1955562222, 2024104815, 2227730452, 2361852424,
   2428436474, 2756734187, 3204031479, 3329325298]

/-- The SHA-256 initial hash value `H⁰` (decimal rendering). -/
def initH : Sha8 :=
  ⟨1779033703, 3144134277, 1013904242, 2773480762,
   1359893119, 2600822924, 528734635, 1541459225⟩

/-- Big-endian byte rendering of a number on `n` bytes. -/
def beBytes : Nat → Nat → Bytes
  | 0, _ => []
  | n + 1, v => beBytes n (v / 256) ++ [v % 256]

/-- SHA-256 message padding: `0x80`, zeros to 56 mod 64, 64-bit bit length. -/
def sha256Pad (msg : Bytes) : Bytes :=
  msg ++ [128] ++ List.replicate ((119 - msg.length % 64) % 64) 0 ++ beBytes 8 (8 * msg.length)

/-- Pack bytes into big-endian 32-bit words. -/
def bytesToWords : Bytes → List Nat
  | b0 :: b1 :: b2 :: b3 :: rest => (((b0 * 256 + b1) * 256 + b2) * 256 + b3) :: bytesToWords rest
  | _ => []

/-- Split a word list into blocks of 16 words (padding makes the length a
multiple of 16, so nothing is dropped by the catch-all case). -/
def chunks16 : List Nat → List (List Nat)
  | w0 :: w1 :: w2 :: w3 :: w4 :: w5 :: w6 :: w7 ::
    w8 :: w9 :: w10 :: w11 :: w12 :: w13 :: w14 :: w15 :: rest =>
      [w0, w1, w2, w3, w4, w5, w6, w7, w8, w9, w10, w11, w12, w13, w14, w15] :: chunks16 rest
  | _ => []

/-- Extend the 16-word message schedule by `n` further words. -/
def extendW : Nat → List Nat → List Nat
  | 0, w => w
  | n + 1, w =>
    let t := (ssig1 (w.getD (w.length - 2) 0) + w.getD (w.length - 7) 0 +
              ssig0 (w.getD (w.length - 15) 0) + w.getD (w.length - 16) 0) % 2 ^ 32
    extendW n (w ++ [t])

/-- One SHA-256 compression round, fed one `(k, w)` pair. -/
def sha256Round (st : Sha8) (kw : Nat × Nat) : Sha8 :=
  let t1 := (st.h + bsig1 st.e + ch st.e st.f st.g + kw.1 + kw.2) % 2 ^ 32
  let t2 := (bsig0 st.a + maj st.a st.b st.c) % 2 ^ 32
  ⟨(t1 + t2) % 2 ^ 32, st.a, st.b, st.c, (st.d + t1) % 2 ^ 32, st.e, st.f, st.g⟩

/-- Compress one 16-word block into the running hash state. -/
def compressBlock (st : Sha8) (block : List Nat) : Sha8 :=
  let w := extendW 48 block
  let r := (k256.zip w).foldl sha256Round st
  ⟨(st.a + r.a) % 2 ^ 32, (st.b + r.b) % 2 ^ 32, (st.c + r.c) % 2 ^ 32, (st.d + r.d) % 2 ^ 32,
   (st.e + r.e) % 2 ^ 32, (st.f + r.f) % 2 ^ 32, (st.g + r.g) % 2 ^ 32, (st.h + r.h) % 2 ^ 32⟩

/-- The SHA-256 digest of a byte sequence, as eight 32-bit words. -/
def sha256Digest (msg : Bytes) : Sha8 :=
  (chunks16 (bytesToWords (sha256Pad msg))).foldl compressBlock initH

/-- Lower-case hex digit. -/
def hexDigit (n : Nat) : Char :=
  if n < 10 then Char.ofNat (48 + n) else Char.ofNat (87 + n)

/-- Eight-character lower-case hex rendering of a 32-bit word. -/
def word32Hex (w : Nat) : String :=
  String.mk [hexDigit (w / 16 ^ 7 % 16), hexDigit (w / 16 ^ 6 % 16),
    hexDigit (w / 16 ^ 5 % 16), hexDigit (w / 16 ^ 4 % 16),
    hexDigit (w / 16 ^ 3 % 16), hexDigit (w / 16 ^ 2 % 16),
    hexDigit (w / 16 % 16), hexDigit (w % 16)]

/-- The SHA-256 hex digest of a byte sequence. -/
def sha256Hex (msg : Bytes) : String :=
  let dg := sha256Digest msg
  word32Hex dg.a ++ word32Hex dg.b ++ word32Hex dg.c ++ word32Hex dg.d ++
  word32Hex dg.e ++ word32Hex dg.f ++ word32Hex dg.g ++ word32Hex dg.h

/-- `hashlib.sha256(s.encode()).hexdigest()`. -/
def sha256HexOfString (s : String) : String := sha256Hex (strBytes s)

/-- FIPS 180-4 test vector for the empty message. -/
theorem sha256Hex_empty_vector : sha256HexOfString "" =
    "e3b0c44298fc1c149afbf4c8996fb92427ae41e4649b934ca495991b7852b855" := by decide

/-- FIPS 180-4 test vector for the message "abc". -/
theorem sha256Hex_abc_vector : sha256HexOfString "abc" =
    "ba7816bf8f01cfea414140de5dae2223b00361a396177a9cb410ff61f20015ad" := by decide

/-! ## Filesystem model

A flat map from paths to file entries.  A file records its content, its
modification time (`os.path.getmtime`), and whether reads succeed on it;
an unreadable-but-present file models a permission/corruption fault. -/

/-- One on-disk file. -/
structure FileEntry where
  content : Bytes
  mtime : Nat
  readable : Bool
deriving DecidableEq, Repr

/-- `open(path, "wb"); f.write(data)`: create or overwrite, set the mtime. -/
def fsWrite (path : String) (data : Bytes) (t : Nat) (fs : List (String × FileEntry)) :
    List (String × FileEntry) :=
  dictInsert path ⟨data, t, true⟩ fs

/-- `open(path, "rb"); f.read()`: `none` when the file is missing or the read
raises `IOError`/`OSError` (unreadable). -/
def fsRead (path : String) (fs : List (String × FileEntry)) : Option Bytes :=
  match dictGet path fs with
  | some e => if e.readable then some e.content else none
  | none => none

/-- `os.path.getmtime(path)`. -/
def fsMtime (path : String) (fs : List (String × FileEntry)) : Option Nat :=
  (dictGet path fs).map FileEntry.mtime

/-- `os.path.exists(path)`. -/
def fsExists (path : String) (fs : List (String × FileEntry)) : Bool :=
  (dictGet path fs).isSome

/-- `os.remove(path)`. -/
def fsRemove (path : String) (fs : List (String × FileEntry)) : List (String × FileEntry) :=
  dictRemove path fs

/-! ## `BlobCache`

The state of one `BlobCache` instance together with the files it owns.
`clock` is the wall clock driving file modification times: it advances on
every `put` (the only operation that writes files).  Fallible filesystem
writes are driven by a `WriteOutcome` oracle; exceptions are modelled by
`Option`/`Except` results. -/

/-- The outcome of the backing-file write attempted inside `put`: success, or
an `IOError`/`OSError` after creating a partial file with the given content,
or a failure that created no file at all (`leftover = none`). -/
inductive WriteOutcome where
  | ok : WriteOutcome
  | fail : Option Bytes → WriteOutcome
deriving DecidableEq, Repr

/-- The state of a `BlobCache`: its constructor attributes, the in-memory
index and access-time dicts, and the backing filesystem. -/
structure BlobCache where
  cacheDir : String
  maxSize : Int
  cacheIndex : List (String × String)
  accessTimes : List (String × Nat)
  files : List (String × FileEntry)
  clock : Nat
deriving DecidableEq, Repr

namespace BlobCache

/-- `BlobCache.__init__(cache_dir, max_size)`: stores the attributes and
starts with empty dicts; it performs no validation of `max_size`. -/
def init (cache_dir : String) (max_size : Int) : BlobCache :=
  { cacheDir := cache_dir, maxSize := max_size, cacheIndex := [], accessTimes := [],
    files := [], clock := 0 }

/-- `BlobCache.__init__` viewed as a fallible constructor: the source body
contains no validation and no `raise`, so it always returns `.ok`. -/
def initResult (cache_dir : String) (max_size : Int) : Except String BlobCache :=
  .ok (init cache_dir max_size)

/-- `BlobCache._remove_from_cache(blob_id)`: delete the backing file
(ignoring a not-found error) and drop both dict entries. -/
def removeFromCache (s : BlobCache) (blob_id : String) : BlobCache :=
  match dictGet blob_id s.cacheIndex with
  | none => s
  | some path =>
    { s with files := fsRemove path s.files,
             cacheIndex := dictRemove blob_id s.cacheIndex,
             accessTimes := dictRemove blob_id s.accessTimes }

/-- `BlobCache._evict_oldest()`: remove the entry whose recorded timestamp is
smallest, first-inserted winning ties; no-op on an empty dict. -/
def evictOldest (s : BlobCache) : BlobCache :=
  match minByVal s.accessTimes with
  | none => s
  | some oldest => s.removeFromCache oldest

/-- The first half of `BlobCache.put`: `if len(self._cache_index) >=
self.max_size: self._evict_oldest()`. -/
def evictPhase (s : BlobCache) : BlobCache :=
  if s.maxSize ≤ (s.cacheIndex.length : Int) then s.evictOldest else s

/-- `BlobCache.get(blob_id)`: index lookup, then file read; a read failure
removes the dangling entry and returns `none` (the function never raises).
On success the entry's recorded time is set to the file's mtime. -/
def get (s : BlobCache) (blob_id : String) : BlobCache × Option Bytes :=
  match dictGet blob_id s.cacheIndex with
  | none => (s, none)
  | some path =>
    match fsRead path s.files with
    | some data =>
      ({ s with accessTimes := dictInsert blob_id ((fsMtime path s.files).getD 0) s.accessTimes },
       some data)
    | none => (s.removeFromCache blob_id, none)

/-- `BlobCache.put(blob_id, data)`: evict if at capacity, then write the file
named by the SHA-256 hex of the id.  On write success both dicts are updated
and the path is returned; on failure the file at that path is removed when it
exists and the exception propagates (result `none`). -/
def put (s : BlobCache) (blob_id : String) (data : Bytes) (w : WriteOutcome) :
    BlobCache × Option String :=
  let s1 := s.evictPhase
  let path := s1.cacheDir ++ "/" ++ sha256HexOfString blob_id
  match w with
  | .ok =>
    let files := fsWrite path data s1.clock s1.files
    ({ s1 with files := files,
               cacheIndex := dictInsert blob_id path s1.cacheIndex,
               accessTimes := dictInsert blob_id ((fsMtime path files).getD 0) s1.accessTimes,
               clock := s1.clock + 1 }, some path)
  | .fail leftover =>
    let files := match leftover with
      | some junk => fsWrite path junk s1.clock s1.files
      | none => s1.files
    let files := if fsExists path files then fsRemove path files else files
    ({ s1 with files := files, clock := s1.clock + 1 }, none)

/-- `BlobCache.cleanup()`: `shutil.rmtree` of the cache directory, removing
every file under it; the in-memory dicts are not touched. -/
def cleanup (s : BlobCache) : BlobCache :=
  { s with files := s.files.filter (fun p => !((s.cacheDir ++ "/").isPrefixOf p.1)) }

/-- Every indexed entry has a readable backing file (the index–filesystem
consistency invariant of the spec). -/
def consistent (s : BlobCache) : Bool :=
  s.cacheIndex.all (fun p => (fsRead p.2 s.files).isSome)

end BlobCache

/-! ## `WalrusClient`

The façade.  The network collaborator is an oracle passed to each
operation; `requests` exceptions surface as `WalrusAPIError` values. -/

/-- The structured API error raised by `_handle_request_error`. -/
structure WalrusAPIError where
  code : Int
  status : String
  message : String
  details : List String
deriving DecidableEq, Repr

/-- The network collaborator for uploads: URL, query parameters and body in,
JSON response text or API error out. -/
abbrev Network := String → List (String × String) → Bytes → Except WalrusAPIError String

/-- Errors raised by the upload wrappers other than via the network. -/
inductive UploadError where
  | fileNotFound : String → UploadError
  | notReadable : UploadError
  | api : WalrusAPIError → UploadError
deriving DecidableEq, Repr

/-- The state of a `WalrusClient`: constructor attributes plus its cache. -/
structure WalrusClient where
  publisherBaseUrl : String
  aggregatorBaseUrl : String
  timeout : Int
  cache : BlobCache
deriving DecidableEq, Repr

/-- Python `s.rstrip("/")`. -/
def rstripSlash (s : String) : String :=
  String.mk ((s.data.reverse.dropWhile (fun c => c == '/')).reverse)

namespace WalrusClient

/-- `WalrusClient.__init__`: strips trailing slashes from the base URLs and
constructs the cache; no validation of the cache bound is performed. -/
def init (publisher_base_url aggregator_base_url : String) (timeout : Int)
    (cache_dir : String) (cache_max_size : Int) : WalrusClient :=
  { publisherBaseUrl := rstripSlash publisher_base_url,
    aggregatorBaseUrl := rstripSlash aggregator_base_url,
    timeout := timeout,
    cache := BlobCache.init cache_dir cache_max_size }

/-- `WalrusClient._build_query_params`. -/
def buildQueryParams (encoding_type : Option String) (epochs : Option Int)
    (deletable : Option Bool) (send_object_to : Option String) : List (String × String) :=
  let params : List (String × String) := []
  let params := match encoding_type with
    | some e => dictInsert "encoding_type" e params
    | none => params
  let params := match epochs with
    | some n => dictInsert "epochs" (toString n) params
    | none => params
  let params := match deletable with
    | some b => dictInsert "deletable" (if b then "true" else "false") params
    | none => params
  match send_object_to with
  | some a => dictInsert "send_object_to" a params
  | none => params

/-- `WalrusClient.put_blob`: a direct upload to the publisher; the cache is
never consulted or modified. -/
def putBlob (c : WalrusClient) (data : Bytes) (encoding_type : Option String)
    (epochs : Option Int) (deletable : Option Bool) (send_object_to : Option String)
    (net : Network) : WalrusClient × Except WalrusAPIError String :=
  (c, net (c.publisherBaseUrl ++ "/v1/blobs")
        (buildQueryParams encoding_type epochs deletable send_object_to) data)

/-- `WalrusClient.put_blob_from_file`: checks the file exists, reads it from
the local filesystem oracle, and delegates to `put_blob`. -/
def putBlobFromFile (c : WalrusClient) (file_path : String) (encoding_type : Option String)
    (epochs : Option Int) (deletable : Option Bool) (send_object_to : Option String)
    (localFile : String → Option Bytes) (net : Network) :
    WalrusClient × Except UploadError String :=
  match localFile file_path with
  | none => (c, .error (.fileNotFound file_path))
  | some data =>
    let r := c.putBlob data encoding_type epochs deletable send_object_to net
    (r.1, r.2.mapError .api)

/-- `WalrusClient.put_blob_from_stream`: rejects an unreadable stream, then
uploads the stream body; the cache is never consulted or modified. -/
def putBlobFromStream (c : WalrusClient) (streamReadable : Bool) (streamData : Bytes)
    (encoding_type : Option String) (epochs : Option Int) (deletable : Option Bool)
    (send_object_to : Option String) (net : Network) :
    WalrusClient × Except UploadError String :=
  if streamReadable then
    (c, (net (c.publisherBaseUrl ++ "/v1/blobs")
          (buildQueryParams encoding_type epochs deletable send_object_to)
          streamData).mapError .api)
  else (c, .error .notReadable)

/-- `WalrusClient.get_blob`: cache lookup first; on a miss, fetch from the
aggregator and attempt to cache the result, swallowing any cache `put`
failure; fetch errors propagate. -/
def getBlob (c : WalrusClient) (blob_id : String)
    (net : String → Except WalrusAPIError Bytes) (w : WriteOutcome) :
    WalrusClient × Except WalrusAPIError Bytes :=
  let r := c.cache.get blob_id
  match r.2 with
  | some d => ({ c with cache := r.1 }, .ok d)
  | none =>
    match net (c.aggregatorBaseUrl ++ "/v1/blobs/" ++ blob_id) with
    | .ok data => ({ c with cache := (r.1.put blob_id data w).1 }, .ok data)
    | .error e => ({ c with cache := r.1 }, .error e)

end WalrusClient

/-! ## Dictionary lemmas -/

@[simp] theorem keys_nil : keys ([] : List (String × α)) = [] := rfl

@[simp] theorem keys_cons (p : String × α) (l : List (String × α)) :
    keys (p :: l) = p.1 :: keys l := rfl

theorem dictGet_dictInsert_self (k : String) (v : α) (l : List (String × α)) :
    dictGet k (dictInsert k v l) = some v := by
  induction l with
  | nil => simp [dictGet, dictInsert]
  | cons p rest ih =>
    obtain ⟨k', v'⟩ := p
    by_cases h : k' = k
    · simp [dictInsert, dictGet, h]
    · simp [dictInsert, dictGet, h, ih]

theorem dictGet_eq_none_iff (k : String) (l : List (String × α)) :
    dictGet k l = none ↔ k ∉ keys l := by
  induction l with
  | nil => simp [dictGet]
  | cons p rest ih =>
    obtain ⟨k', v'⟩ := p
    by_cases h : k' = k
    · subst h; simp [dictGet]
    · simp [dictGet, h, ih, Ne.symm h]

theorem keys_dictInsert (k : String) (v : α) (l : List (String × α)) :
    keys (dictInsert k v l) = if k ∈ keys l then keys l else keys l ++ [k] := by
  induction l with
  | nil => simp [dictInsert]
  | cons p rest ih =>
    obtain ⟨k', v'⟩ := p
    by_cases h : k' = k
    · subst h; simp [dictInsert]
    · by_cases hm : k ∈ keys rest <;>
        simp [dictInsert, h, ih, hm, Ne.symm h]

theorem nodup_keys_dictInsert (k : String) (v : α) (l : List (String × α))
    (h : (keys l).Nodup) : (keys (dictInsert k v l)).Nodup := by
  rw [keys_dictInsert]
  split
  · exact h
  · next hm => simp [List.nodup_append, h, hm]

theorem length_dictInsert (k : String) (v : α) (l : List (String × α)) :
    (dictInsert k v l).length = if k ∈ keys l then l.length else l.length + 1 := by
  induction l with
  | nil => simp [dictInsert]
  | cons p rest ih =>
    obtain ⟨k', v'⟩ := p
    by_cases h : k' = k
    · subst h; simp [dictInsert]
    · by_cases hm : k ∈ keys rest <;>
        simp [dictInsert, h, ih, hm, Ne.symm h]

theorem keys_dictRemove (k : String) (l : List (String × α)) :
    keys (dictRemove k l) = (keys l).filter (fun x => x != k) := by
  induction l with
  | nil => simp [dictRemove]
  | cons p rest ih =>
    obtain ⟨k', v'⟩ := p
    by_cases h : k' = k <;>
      simp [dictRemove, List.filter_cons, h, ← ih, dictRemove]

theorem dictRemove_eq_self_of_not_mem (k : String) (l : List (String × α))
    (h : k ∉ keys l) : dictRemove k l = l := by
  induction l with
  | nil => simp [dictRemove]
  | cons p rest ih =>
    obtain ⟨k', v'⟩ := p
    simp only [keys_cons, List.mem_cons, not_or] at h
    have h1 : k' ≠ k := fun hk => h.1 hk.symm
    simp only [dictRemove, List.filter_cons] at ih ⊢
    simp [h1, ih h.2]

theorem dictGet_dictRemove_self (k : String) (l : List (String × α)) :
    dictGet k (dictRemove k l) = none := by
  induction l with
  | nil => simp [dictRemove, dictGet]
  | cons p rest ih =>
    obtain ⟨k', v'⟩ := p
    by_cases h : k' = k <;>
      simp only [dictRemove, List.filter_cons] at ih ⊢ <;>
      simp [dictGet, h, ih]

theorem length_dictRemove_add_one (k : String) (l : List (String × α))
    (hnd : (keys l).Nodup) (hm : k ∈ keys l) :
    (dictRemove k l).length + 1 = l.length := by
  induction l with
  | nil => simp at hm
  | cons p rest ih =>
    obtain ⟨k', v'⟩ := p
    simp only [keys_cons, List.nodup_cons] at hnd
    by_cases h : k' = k
    · subst h
      have hout : k' ∉ keys rest := hnd.1
      have hid : dictRemove k' rest = rest := dictRemove_eq_self_of_not_mem _ _ hout
      simp only [dictRemove] at hid
      simp [dictRemove, List.filter_cons, hid]
    · have hm' : k ∈ keys rest := by
        rcases List.mem_cons.mp hm with h1 | h2
        · exact absurd h1.symm h
        · exact h2
      have hrec := ih hnd.2 hm'
      simp only [dictRemove, List.filter_cons] at hrec ⊢
      simp only [h, bne_iff_ne, ne_eq, not_false_iff, if_true]
      simp only [List.length_cons]
      omega

theorem fsExists_fsRemove_self (path : String) (fs : List (String × FileEntry)) :
    fsExists path (fsRemove path fs) = false := by
  simp [fsExists, fsRemove, dictGet_dictRemove_self]

theorem minFrom_mem (k : String) (v : Nat) (l : List (String × Nat)) :
    minFrom k v l ∈ k :: keys l := by
  induction l generalizing k v with
  | nil => simp [minFrom]
  | cons p rest ih =>
    obtain ⟨k', v'⟩ := p
    by_cases h : v' < v
    · have := ih k' v'
      simp only [minFrom, if_pos h, keys, List.map_cons]
      exact List.mem_cons_of_mem _ this
    · have := ih k v
      simp only [minFrom, if_neg h, keys, List.map_cons]
      rcases List.mem_cons.mp this with h1 | h2
      · rw [h1]; exact List.mem_cons_self _ _
      · exact List.mem_cons_of_mem _ (List.mem_cons_of_mem _ h2)

theorem minByVal_mem (l : List (String × Nat)) (k : String)
    (h : minByVal l = some k) : k ∈ keys l := by
  cases l with
  | nil => simp [minByVal] at h
  | cons p rest =>
    obtain ⟨k₀, v₀⟩ := p
    simp only [minByVal, Option.some.injEq] at h
    have := minFrom_mem k₀ v₀ rest
    rw [h] at this
    simpa [keys] using this

theorem minByVal_eq_some (l : List (String × Nat)) (h : l ≠ []) :
    ∃ k, minByVal l = some k := by
  cases l with
  | nil => exact absurd rfl h
  | cons p rest => exact ⟨minFrom p.1 p.2 rest, by simp [minByVal]⟩

/-! ## `BlobCache` invariant machinery -/

namespace BlobCache

/-- Well-formedness of the in-memory state: the index has no duplicate keys
and the two dicts always hold exactly the same keys in the same order (both
are only ever updated in lockstep by the source). -/
def wfState (s : BlobCache) : Prop :=
  (keys s.cacheIndex).Nodup ∧ keys s.accessTimes = keys s.cacheIndex

@[simp] theorem removeFromCache_cacheDir (s : BlobCache) (id : String) :
    (s.removeFromCache id).cacheDir = s.cacheDir := by
  unfold removeFromCache; split <;> rfl

@[simp] theorem removeFromCache_maxSize (s : BlobCache) (id : String) :
    (s.removeFromCache id).maxSize = s.maxSize := by
  unfold removeFromCache; split <;> rfl

theorem removeFromCache_cacheIndex (s : BlobCache) (id : String) :
    (s.removeFromCache id).cacheIndex = dictRemove id s.cacheIndex := by
  unfold removeFromCache
  split
  · next h =>
    rw [dictRemove_eq_self_of_not_mem _ _ ((dictGet_eq_none_iff _ _).mp h)]
  · rfl

theorem removeFromCache_accessTimes (s : BlobCache) (id : String)
    (h : keys s.accessTimes = keys s.cacheIndex) :
    (s.removeFromCache id).accessTimes = dictRemove id s.accessTimes := by
  unfold removeFromCache
  split
  · next hg =>
    rw [dictRemove_eq_self_of_not_mem _ _
      (fun hmem => (dictGet_eq_none_iff _ _).mp hg (h ▸ hmem))]
  · rfl

theorem wfState_removeFromCache (s : BlobCache) (id : String) (h : s.wfState) :
    (s.removeFromCache id).wfState := by
  constructor
  · rw [removeFromCache_cacheIndex, keys_dictRemove]
    exact h.1.filter _
  · rw [removeFromCache_cacheIndex, removeFromCache_accessTimes _ _ h.2,
        keys_dictRemove, keys_dictRemove, h.2]

@[simp] theorem evictOldest_cacheDir (s : BlobCache) :
    s.evictOldest.cacheDir = s.cacheDir := by
  unfold evictOldest; split <;> simp

@[simp] theorem evictOldest_maxSize (s : BlobCache) :
    s.evictOldest.maxSize = s.maxSize := by
  unfold evictOldest; split <;> simp

theorem wfState_evictOldest (s : BlobCache) (h : s.wfState) : s.evictOldest.wfState := by
  unfold evictOldest
  split
  · exact h
  · exact wfState_removeFromCache _ _ h

theorem evictOldest_length (s : BlobCache) (h : s.wfState)
    (hne : s.cacheIndex ≠ []) :
    s.evictOldest.cacheIndex.length + 1 = s.cacheIndex.length := by
  have hA : s.accessTimes ≠ [] := by
    intro hAe
    apply hne
    have := h.2
    rw [hAe] at this
    cases hI : s.cacheIndex with
    | nil => rfl
    | cons p rest => rw [hI] at this; simp at this
  obtain ⟨k, hk⟩ := minByVal_eq_some _ hA
  have hkmem : k ∈ keys s.cacheIndex := h.2 ▸ minByVal_mem _ _ hk
  unfold evictOldest
  rw [hk]
  rw [removeFromCache_cacheIndex]
  exact length_dictRemove_add_one _ _ h.1 hkmem

@[simp] theorem evictPhase_cacheDir (s : BlobCache) :
    s.evictPhase.cacheDir = s.cacheDir := by
  unfold evictPhase; split <;> simp

@[simp] theorem evictPhase_maxSize (s : BlobCache) :
    s.evictPhase.maxSize = s.maxSize := by
  unfold evictPhase; split <;> simp

theorem wfState_evictPhase (s : BlobCache) (h : s.wfState) : s.evictPhase.wfState := by
  unfold evictPhase
  split
  · exact wfState_evictOldest _ h
  · exact h

theorem evictPhase_length_lt (s : BlobCache) (h : s.wfState) (hcap : 1 ≤ s.maxSize)
    (hlen : (s.cacheIndex.length : Int) ≤ s.maxSize) :
    (s.evictPhase.cacheIndex.length : Int) < s.maxSize := by
  unfold evictPhase
  split
  · next hge =>
    have hEq : (s.cacheIndex.length : Int) = s.maxSize := le_antisymm hlen hge
    have hne : s.cacheIndex ≠ [] := by
      intro h0
      rw [h0] at hEq
      simp at hEq
      omega
    have hlen1 := evictOldest_length s h hne
    omega
  · next hlt => omega

theorem put_wfState_bound (s : BlobCache) (id : String) (data : Bytes) (w : WriteOutcome)
    (h : s.wfState) (hcap : 1 ≤ s.maxSize)
    (hlen : (s.cacheIndex.length : Int) ≤ s.maxSize) :
    (s.put id data w).1.wfState ∧
      ((s.put id data w).1.cacheIndex.length : Int) ≤ s.maxSize ∧
      (s.put id data w).1.maxSize = s.maxSize := by
  have h1 : s.evictPhase.wfState := wfState_evictPhase s h
  have hlt : (s.evictPhase.cacheIndex.length : Int) < s.maxSize :=
    evictPhase_length_lt s h hcap hlen
  cases w with
  | ok =>
    refine ⟨⟨?_, ?_⟩, ?_, ?_⟩
    · simpa [put] using nodup_keys_dictInsert _ _ _ h1.1
    · simp only [put]
      rw [keys_dictInsert, keys_dictInsert, h1.2]
    · simp only [put]
      rw [length_dictInsert]
      split <;> omega
    · simp [put]
  | fail leftover =>
    refine ⟨⟨?_, ?_⟩, ?_, ?_⟩
    · simpa [put] using h1.1
    · simpa [put] using h1.2
    · simp only [put]
      omega
    · simp [put]

end BlobCache

/-- One recorded `put` call: its arguments and the write outcome the
filesystem produced for it. -/
structure PutOp where
  blobId : String
  data : Bytes
  outcome : WriteOutcome
deriving DecidableEq, Repr

/-- Run a sequence of `put` calls against a cache. -/
def applyPuts (s : BlobCache) : List PutOp → BlobCache
  | [] => s
  | op :: rest => applyPuts (s.put op.blobId op.data op.outcome).1 rest

theorem applyPuts_wfState_bound (ops : List PutOp) (s : BlobCache)
    (h : s.wfState) (hcap : 1 ≤ s.maxSize)
    (hlen : (s.cacheIndex.length : Int) ≤ s.maxSize) :
    (applyPuts s ops).wfState ∧
      ((applyPuts s ops).cacheIndex.length : Int) ≤ s.maxSize ∧
      (applyPuts s ops).maxSize = s.maxSize := by
  induction ops generalizing s with
  | nil => exact ⟨h, hlen, rfl⟩
  | cons op rest ih =>
    obtain ⟨hw, hl, hm⟩ :=
      BlobCache.put_wfState_bound s op.blobId op.data op.outcome h hcap hlen
    obtain ⟨hw', hl', hm'⟩ := ih _ hw (by rw [hm]; exact hcap) (by rw [hm]; exact hl)
    rw [hm] at hl' hm'
    refine ⟨?_, ?_, ?_⟩ <;> simp only [applyPuts]
    · exact hw'
    · exact hl'
    · exact hm'

theorem word32Hex_length (w : Nat) : (word32Hex w).length = 8 := rfl

theorem sha256Hex_length (m : Bytes) : (sha256Hex m).length = 64 := by
  simp [sha256Hex, String.length_append, word32Hex_length]

theorem sha256HexOfString_length (s : String) : (sha256HexOfString s).length = 64 :=
  sha256Hex_length _

/-! ## Claim theorems -/

/-- The C1 scenario: capacity 2; `put("a", b"1")`, `put("b", b"2")`,
`get("a")`, `put("c", b"3")`, with the clock strictly increasing across
puts. -/
def scenC1 : BlobCache :=
  let s0 := BlobCache.init "d" 2
  let s1 := (s0.put "a" [49] .ok).1
  let s2 := (s1.put "b" [50] .ok).1
  let s3 := (s2.get "a").1
  (s3.put "c" [51] .ok).1

/-- C1 (code bug): the claim says a successful `get` refreshes the entry's
access timestamp, so the scenario with capacity 2 — put "a", put "b",
get "a", put "c" — evicts "b".  In the code, `get` stores
`os.path.getmtime` of the backing file, a value that a read never changes,
so "a" keeps the oldest recorded timestamp and is the entry evicted:
afterwards `get "a"` is absent while `get "b"` and `get "c"` both hit —
the opposite of the claim. -/
theorem c1_get_does_not_refresh_scenario :
    (scenC1.get "b").2 = some [50] ∧ (scenC1.get "a").2 = none ∧
      (scenC1.get "c").2 = some [51] := by decide

/-- C2 (confirmed): under the count-bounded policy with positive capacity N,
after every sequence of `put` operations the in-memory index holds at most N
entries (hence at most N at every point, every prefix being itself such a
sequence), and when the index is at capacity the eviction phase of `put`
removes exactly one entry before the insert. -/
theorem c2_count_bound (dir : String) (N : Int) (hN : 1 ≤ N) (ops : List PutOp) :
    ((applyPuts (BlobCache.init dir N) ops).cacheIndex.length : Int) ≤ N ∧
      (((applyPuts (BlobCache.init dir N) ops).cacheIndex.length : Int) = N →
        (applyPuts (BlobCache.init dir N) ops).evictPhase.cacheIndex.length + 1 =
          (applyPuts (BlobCache.init dir N) ops).cacheIndex.length) := by
  have h0 : (BlobCache.init dir N).wfState :=
    ⟨by simp [BlobCache.init], by simp [BlobCache.init]⟩
  obtain ⟨hw, hl, hm⟩ := applyPuts_wfState_bound ops _ h0
    (by simpa [BlobCache.init] using hN) (by simp [BlobCache.init]; omega)
  rw [show (BlobCache.init dir N).maxSize = N from rfl] at hl hm
  refine ⟨hl, fun hfull => ?_⟩
  have hne : (applyPuts (BlobCache.init dir N) ops).cacheIndex ≠ [] := by
    intro hnil
    rw [hnil] at hfull
    simp at hfull
    omega
  have hc : (applyPuts (BlobCache.init dir N) ops).maxSize ≤
      ((applyPuts (BlobCache.init dir N) ops).cacheIndex.length : Int) := by
    rw [hm, hfull]
  rw [show (applyPuts (BlobCache.init dir N) ops).evictPhase =
      (applyPuts (BlobCache.init dir N) ops).evictOldest by
    simp only [BlobCache.evictPhase, if_pos hc]]
  exact BlobCache.evictOldest_length _ hw hne

/-- Witness for C2: capacity 1, two successful puts. -/
theorem c2_count_bound_witness :
    ((applyPuts (BlobCache.init "d" 1)
        [⟨"a", [49], .ok⟩, ⟨"b", [50], .ok⟩]).cacheIndex.length : Int) ≤ 1 ∧
      (((applyPuts (BlobCache.init "d" 1)
          [⟨"a", [49], .ok⟩, ⟨"b", [50], .ok⟩]).cacheIndex.length : Int) = 1 →
        (applyPuts (BlobCache.init "d" 1)
            [⟨"a", [49], .ok⟩, ⟨"b", [50], .ok⟩]).evictPhase.cacheIndex.length + 1 =
          (applyPuts (BlobCache.init "d" 1)
              [⟨"a", [49], .ok⟩, ⟨"b", [50], .ok⟩]).cacheIndex.length) :=
  c2_count_bound "d" 1 (by decide) [⟨"a", [49], .ok⟩, ⟨"b", [50], .ok⟩]

/-- C3 (confirmed): for every cache state, blob id and data, after a `put`
whose backing-file write succeeds, an immediate `get` of the same id returns
exactly the stored bytes. -/
theorem c3_hit_after_put (s : BlobCache) (id : String) (data : Bytes) :
    ((s.put id data .ok).1.get id).2 = some data := by
  simp [BlobCache.put, BlobCache.get, dictGet_dictInsert_self, fsRead, fsWrite]

/-- C4 helper: a cache holding "a" after one successful put. -/
def scenC4a : BlobCache := ((BlobCache.init "d" 100).put "a" [49] .ok).1

/-- C4 helper: the same cache after `put "a"` whose write fails without
creating a file (e.g. `open` raising `IOError`). -/
def scenC4b : BlobCache := (scenC4a.put "a" [50] (.fail none)).1

/-- C4 (code bug): the claim says the index–filesystem consistency invariant
is preserved by every operation, including a put whose write fails while the
same blob id is already cached.  In the code, the failure handler of `put`
removes the file at the hash path whenever it exists — deleting the
pre-existing valid backing file of the already-cached entry — while leaving
its index entry in place, so an indexed entry without a readable file
survives the operation and no immediate repair happens. -/
theorem c4_failed_reput_breaks_consistency :
    scenC4a.consistent = true ∧ scenC4b.consistent = false ∧
      (dictGet "a" scenC4b.cacheIndex).isSome = true := by decide

/-- C5 (confirmed): `get` (a total function here, mirroring that the source
catches `IOError`/`OSError`) returns a miss with an unchanged state when the
id is not indexed, and when the id is indexed but its backing file is
missing or unreadable it removes the dangling entry and returns a miss. -/
theorem c5_get_never_raises (s : BlobCache) (id : String) :
    (dictGet id s.cacheIndex = none → s.get id = (s, none)) ∧
      ∀ path, dictGet id s.cacheIndex = some path → fsRead path s.files = none →
        s.get id = (s.removeFromCache id, none) ∧
          dictGet id (s.get id).1.cacheIndex = none := by
  constructor
  · intro h
    simp [BlobCache.get, h]
  · intro path hp hr
    have hg : s.get id = (s.removeFromCache id, none) := by
      simp [BlobCache.get, hp, hr]
    refine ⟨hg, ?_⟩
    rw [hg]
    simp [BlobCache.removeFromCache_cacheIndex, dictGet_dictRemove_self]

/-- C5 witness helper: a cache whose single indexed entry has lost its
backing file. -/
def danglingCache : BlobCache :=
  { ((BlobCache.init "d" 5).put "x" [49] .ok).1 with files := [] }

/-- Witness for C5: a fresh cache misses without state change, and the
dangling entry is repaired and reported absent. -/
theorem c5_get_never_raises_witness :
    (BlobCache.init "d" 5).get "y" = (BlobCache.init "d" 5, none) ∧
      danglingCache.get "x" = (danglingCache.removeFromCache "x", none) ∧
      dictGet "x" (danglingCache.get "x").1.cacheIndex = none :=
  ⟨(c5_get_never_raises (BlobCache.init "d" 5) "y").1 (by decide),
   (c5_get_never_raises danglingCache "x").2 ("d/" ++ sha256HexOfString "x")
     (by decide) (by decide)⟩

/-- C6 (confirmed): when the backing-file write inside `put` fails, the
exception is re-raised (result `none`), neither the index nor the timestamp
dict is touched after the eviction phase (so no entry for the blob id is
inserted), and no file is left at the blob's path — in particular any
partially-created file has been removed. -/
theorem c6_put_failure_atomicity (s : BlobCache) (id : String) (data : Bytes)
    (leftover : Option Bytes) :
    (s.put id data (.fail leftover)).2 = none ∧
      (s.put id data (.fail leftover)).1.cacheIndex = s.evictPhase.cacheIndex ∧
      (s.put id data (.fail leftover)).1.accessTimes = s.evictPhase.accessTimes ∧
      fsExists (s.cacheDir ++ "/" ++ sha256HexOfString id)
        (s.put id data (.fail leftover)).1.files = false := by
  refine ⟨by simp [BlobCache.put], by simp [BlobCache.put], by simp [BlobCache.put], ?_⟩
  simp only [BlobCache.put]
  rw [show s.evictPhase.cacheDir = s.cacheDir from BlobCache.evictPhase_cacheDir s]
  split
  · next h => exact fsExists_fsRemove_self _ _
  · next h => simpa using h

/-- C7 counterexample: constructing a `BlobCache` with capacity 0 does not
fail (the translated `__init__` always returns `.ok`), and an operation is
then accepted: a subsequent `put` succeeds and returns a path — refuting
"fails fast at construction ... before any operation is attempted". -/
theorem c7_counterexample :
    BlobCache.initResult "d" 0 = .ok (BlobCache.init "d" 0) ∧
      ((BlobCache.init "d" 0).put "a" [49] .ok).2 =
        some ("d/" ++ sha256HexOfString "a") :=
  ⟨rfl, by decide⟩

/-- C7 (corrected): neither `BlobCache.__init__` nor `WalrusClient.__init__`
validates the cache bound: a non-positive `max_size` is accepted without any
error and simply stored. -/
theorem c7_construction_accepts_nonpositive (dir pub agg : String) (t m : Int)
    (_hm : m ≤ 0) :
    BlobCache.initResult dir m = .ok (BlobCache.init dir m) ∧
      (BlobCache.init dir m).maxSize = m ∧
      (WalrusClient.init pub agg t dir m).cache = BlobCache.init dir m :=
  ⟨rfl, rfl, rfl⟩

/-- Witness for C7's amended claim at `max_size = -1`. -/
theorem c7_construction_accepts_nonpositive_witness :
    BlobCache.initResult "d" (-1) = .ok (BlobCache.init "d" (-1)) ∧
      (BlobCache.init "d" (-1)).maxSize = -1 ∧
      (WalrusClient.init "p" "a" 30 "d" (-1)).cache = BlobCache.init "d" (-1) :=
  c7_construction_accepts_nonpositive "d" "p" "a" 30 (-1) (by decide)

/-- C8 (confirmed): when `get_blob` misses the cache and the network fetch
succeeds, the fetched bytes are returned whatever the outcome of the cache
population (`w` ranges over success and both failure shapes): the cache
error is swallowed, never propagated. -/
theorem c8_read_survives_cache_failure (c : WalrusClient) (id : String)
    (data : Bytes) (net : String → Except WalrusAPIError Bytes) (w : WriteOutcome)
    (hmiss : (c.cache.get id).2 = none)
    (hnet : net (c.aggregatorBaseUrl ++ "/v1/blobs/" ++ id) = .ok data) :
    (c.getBlob id net w).2 = .ok data := by
  simp [WalrusClient.getBlob, hmiss, hnet]

/-- C8 witness helper: a freshly constructed client. -/
def clientW : WalrusClient := WalrusClient.init "http://p/" "http://a/" 30 "d" 2

/-- Witness for C8: fresh cache (miss), fetch succeeds, cache `put` fails —
the fetched bytes are still returned. -/
theorem c8_read_survives_cache_failure_witness :
    (clientW.getBlob "x" (fun _ => .ok [7]) (.fail none)).2 = .ok [7] :=
  c8_read_survives_cache_failure clientW "x" [7] (fun _ => .ok [7]) (.fail none)
    (by decide) rfl

/-- C9 (confirmed): the three upload operations never touch the cache — for
every input and network outcome the resulting client's cache equals the
original cache. -/
theorem c9_write_bypass (c : WalrusClient) (data : Bytes) (enc : Option String)
    (epochs : Option Int) (del : Option Bool) (sendTo : Option String)
    (net : Network) (fp : String) (localFile : String → Option Bytes)
    (sr : Bool) (sd : Bytes) :
    (c.putBlob data enc epochs del sendTo net).1.cache = c.cache ∧
      (c.putBlobFromFile fp enc epochs del sendTo localFile net).1.cache = c.cache ∧
      (c.putBlobFromStream sr sd enc epochs del sendTo net).1.cache = c.cache := by
  refine ⟨rfl, ?_, ?_⟩
  · cases h : localFile fp <;>
      simp [WalrusClient.putBlobFromFile, WalrusClient.putBlob, h]
  · cases sr <;> simp [WalrusClient.putBlobFromStream]

/-- C10 (confirmed): a successful `put` returns the path of a single regular
file in the cache directory named by the SHA-256 hex digest of the blob id —
a fixed-length (64-character) name — and the returned location depends only
on the cache directory and the blob id, never on the data. -/
theorem c10_put_path_is_sha256 (s : BlobCache) (id : String) (d1 d2 : Bytes) :
    (s.put id d1 .ok).2 = some (s.cacheDir ++ "/" ++ sha256HexOfString id) ∧
      (sha256HexOfString id).length = 64 ∧
      (s.put id d1 .ok).2 = (s.put id d2 .ok).2 := by
  refine ⟨?_, sha256HexOfString_length _, ?_⟩ <;> simp [BlobCache.put]

end Walrus
